import Mathlib

/-!
Verification development for the repository-inspection core of a desktop
diff viewer (Rust sources under `src-tauri/src`): the git diff engine
(`git/mod.rs`, `git/types.rs`) and the debounced filesystem watcher
(`watcher.rs`).

Modelling conventions:
* Rust `String` values that are only compared or copied (paths, names,
  messages, urls) are modelled as `List Char` (`Str`); values whose byte
  length matters (the per-file patch buffer, whose `len()` is a UTF-8 byte
  count) are modelled as `List Nat` byte sequences (`Bytes`).
* `usize` counters are modelled as `Nat`.
* The external libraries (git2/libgit2, the `url` crate, chrono, notify)
  are modelled as explicit environment records of functions; the control
  flow, error mapping and data flow of the repository's own code are
  translated statement by statement.
* A Rust operation that can panic (byte-range slicing `sha[..7]`) is
  modelled in `Option`, `none` meaning a panic.
* Diff traversal: libgit2's `Diff::foreach` fires the file callback once
  per delta and then the line callback for every line of that delta before
  moving to the next delta (the single-file-at-a-time invariant the code
  relies on), so a diff is modelled as a list of deltas each carrying its
  lines.
-/

namespace Differ

abbrev Str : Type := List Char

abbrev Bytes : Type := List Nat

instance {ε α : Type} [DecidableEq ε] [DecidableEq α] : DecidableEq (Except ε α) := fun x y =>
  match x, y with
  | Except.ok a, Except.ok b =>
    if h : a = b then isTrue (congrArg Except.ok h)
    else isFalse (fun hab => h (Except.ok.inj hab))
  | Except.error a, Except.error b =>
    if h : a = b then isTrue (congrArg Except.error h)
    else isFalse (fun hab => h (Except.error.inj hab))
  | Except.ok _, Except.error _ => isFalse (fun hab => Except.noConfusion hab)
  | Except.error _, Except.ok _ => isFalse (fun hab => Except.noConfusion hab)

/-- Boolean test that the first list is a leading segment of the second
(Rust `str::starts_with`). -/
def hasPre : Str → Str → Bool
  | [], _ => true
  | _ :: _, [] => false
  | a :: as, b :: bs => (a == b) && hasPre as bs

/-- Boolean substring test (Rust `str::contains` with a literal pattern):
some tail of the haystack starts with the needle. -/
def containsSubstr : Str → Str → Bool
  | [], needle => hasPre needle []
  | x :: t, needle => hasPre needle (x :: t) || containsSubstr t needle

/-- Rust `str::split(c)` semantics: split at every occurrence of the
separator, keeping empty fields; the result is always nonempty. -/
def splitOnChar (c : Char) : Str → List Str
  | [] => [[]]
  | x :: xs =>
    match splitOnChar c xs with
    | [] => []
    | y :: ys => if x = c then [] :: y :: ys else (x :: y) :: ys

/-- Split at the first occurrence of a separator string, returning the
parts before and after it, or `none` when the separator does not occur. -/
def splitFirstOn (sep : Str) : Str → Option (Str × Str)
  | [] => if hasPre sep [] then some ([], []) else none
  | x :: xs =>
    if hasPre sep (x :: xs) then some ([], (x :: xs).drop sep.length)
    else
      match splitFirstOn sep xs with
      | some (a, b) => some (x :: a, b)
      | none => none

/-- Boolean test that the first list is a trailing segment of the second
(Rust `str::ends_with`). -/
def hasSuf (suf s : Str) : Bool := hasPre suf.reverse s.reverse

/-- One step of suffix removal: drop the trailing `suf.length` characters. -/
def trimEndStep (suf s : Str) : Str := s.take (s.length - suf.length)

/-- Fuel-indexed loop for `trimEndMatches`; each iteration removes one
occurrence of the suffix, so `s.length` iterations always suffice. -/
def trimEndLoop (suf : Str) : Nat → Str → Str
  | 0, s => s
  | fuel + 1, s =>
    if hasSuf suf s && !suf.isEmpty then trimEndLoop suf fuel (trimEndStep suf s) else s

/-- Rust `str::trim_end_matches(pat)`: repeatedly remove the suffix while
it matches. -/
def trimEndMatches (suf s : Str) : Str := trimEndLoop suf s.length s

/-- Byte length of one scalar value in UTF-8. -/
def charUtf8Size (c : Char) : Nat :=
  if c.toNat < 0x80 then 1
  else if c.toNat < 0x800 then 2
  else if c.toNat < 0x10000 then 3
  else 4

/-- UTF-8 encoding of one scalar value. -/
def utf8EncodeChar (c : Char) : Bytes :=
  let n := c.toNat
  if n < 0x80 then [n]
  else if n < 0x800 then [0xC0 + n / 0x40, 0x80 + n % 0x40]
  else if n < 0x10000 then [0xE0 + n / 0x1000, 0x80 + (n / 0x40) % 0x40, 0x80 + n % 0x40]
  else [0xF0 + n / 0x40000, 0x80 + (n / 0x1000) % 0x40, 0x80 + (n / 0x40) % 0x40, 0x80 + n % 0x40]

/-- Continuation byte of a UTF-8 sequence. -/
def contByte (b : Nat) : Bool := decide (0x80 ≤ b) && decide (b ≤ 0xBF)

/-- Fuel-indexed strict UTF-8 validation (the table of
`core::str::from_utf8`); each step consumes at least one byte, so
`l.length` fuel always suffices. -/
def utf8ValidFuel : Nat → Bytes → Bool
  | _, [] => true
  | 0, _ :: _ => false
  | fuel + 1, b :: rest =>
    if b < 0x80 then utf8ValidFuel fuel rest
    else if 0xC2 ≤ b ∧ b ≤ 0xDF then
      match rest with
      | c1 :: r => contByte c1 && utf8ValidFuel fuel r
      | [] => false
    else if b = 0xE0 then
      match rest with
      | c1 :: c2 :: r =>
        (decide (0xA0 ≤ c1) && decide (c1 ≤ 0xBF)) && contByte c2 && utf8ValidFuel fuel r
      | _ => false
    else if (0xE1 ≤ b ∧ b ≤ 0xEC) ∨ (0xEE ≤ b ∧ b ≤ 0xEF) then
      match rest with
      | c1 :: c2 :: r => contByte c1 && contByte c2 && utf8ValidFuel fuel r
      | _ => false
    else if b = 0xED then
      match rest with
      | c1 :: c2 :: r =>
        (decide (0x80 ≤ c1) && decide (c1 ≤ 0x9F)) && contByte c2 && utf8ValidFuel fuel r
      | _ => false
    else if b = 0xF0 then
      match rest with
      | c1 :: c2 :: c3 :: r =>
        (decide (0x90 ≤ c1) && decide (c1 ≤ 0xBF)) && contByte c2 && contByte c3 &&
          utf8ValidFuel fuel r
      | _ => false
    else if 0xF1 ≤ b ∧ b ≤ 0xF3 then
      match rest with
      | c1 :: c2 :: c3 :: r => contByte c1 && contByte c2 && contByte c3 && utf8ValidFuel fuel r
      | _ => false
    else if b = 0xF4 then
      match rest with
      | c1 :: c2 :: c3 :: r =>
        (decide (0x80 ≤ c1) && decide (c1 ≤ 0x8F)) && contByte c2 && contByte c3 &&
          utf8ValidFuel fuel r
      | _ => false
    else false

/-- Strict UTF-8 validity of a byte sequence, the success condition of
`std::str::from_utf8`. -/
def utf8Valid (l : Bytes) : Bool := utf8ValidFuel l.length l

/-- Rust byte-range slicing `s[..n]` on a string, modelled over the
character list: `some` of the first characters when byte position `n` is in
bounds and on a character boundary, `none` (a panic) otherwise. -/
def byteSliceTo : Str → Nat → Option Str
  | _, 0 => some []
  | [], _ + 1 => none
  | c :: cs, n + 1 =>
    if charUtf8Size c ≤ n + 1 then
      match byteSliceTo cs (n + 1 - charUtf8Size c) with
      | some r => some (c :: r)
      | none => none
    else none

/-- Lowercase hex digit, the alphabet of a formatted git object id. -/
def isHexLowerChar (c : Char) : Bool :=
  (decide (0x30 ≤ c.toNat) && decide (c.toNat ≤ 0x39)) ||
    (decide (0x61 ≤ c.toNat) && decide (c.toNat ≤ 0x66))

/-- Bytes of an ASCII string literal; used only for concrete test inputs. -/
def asciiBytes (s : String) : Bytes := s.toList.map Char.toNat

/-! ## Wire types (`git/types.rs`, `watcher.rs`) -/

/-- FileStatus from `types.rs`. -/
inductive FileStatus : Type
  | Added
  | Deleted
  | Modified
  | Renamed
deriving DecidableEq

/-- GitProvider from `types.rs`. -/
inductive GitProvider : Type
  | Github
  | Gitlab
  | Bitbucket
  | Unknown
deriving DecidableEq

/-- FileDiffInfo from `types.rs`; `patch` is kept as the byte sequence of
the Rust `String` so that its `len()` is the byte length the code caps. -/
structure FileDiffInfo : Type where
  path : Str
  old_path : Option Str
  status : FileStatus
  additions : Nat
  deletions : Nat
  old_content : Option Str
  new_content : Option Str
  patch : Option Bytes
  is_large : Option Bool
deriving DecidableEq

/-- DiffStats from `types.rs`. -/
structure DiffStats : Type where
  additions : Nat
  deletions : Nat
  files : Nat
deriving DecidableEq

/-- DiffResult from `types.rs`. -/
structure DiffResult : Type where
  files : List FileDiffInfo
  stats : DiffStats
deriving DecidableEq

/-- CompareBranchesResult from `types.rs`. -/
structure CompareBranchesResult : Type where
  files : List FileDiffInfo
  stats : DiffStats
  commit_count : Nat
deriving DecidableEq

/-- CommitStats from `types.rs`. -/
structure CommitStats : Type where
  additions : Nat
  deletions : Nat
  files : Nat
deriving DecidableEq

/-- CommitInfo from `types.rs`. -/
structure CommitInfo : Type where
  sha : Str
  short_sha : Str
  message : Str
  author : Str
  author_email : Str
  date : Str
  stats : CommitStats
deriving DecidableEq

/-- CommitHistory from `types.rs`. -/
structure CommitHistory : Type where
  commits : List CommitInfo
  total : Nat
deriving DecidableEq

/-- CommitDiff from `types.rs`. -/
structure CommitDiff : Type where
  commit : CommitInfo
  files : List FileDiffInfo
deriving DecidableEq

/-- BranchInfo from `types.rs`. -/
structure BranchInfo : Type where
  name : Str
  current : Bool
  commit : Str
deriving DecidableEq

/-- BranchList from `types.rs`. -/
structure BranchList : Type where
  branches : List BranchInfo
  current : Str
deriving DecidableEq

/-- RemoteInfo from `types.rs`. -/
structure RemoteInfo : Type where
  url : Str
  provider : GitProvider
  owner : Str
  repo : Str
deriving DecidableEq

/-- FileChangeEvent from `watcher.rs`. -/
structure FileChangeEvent : Type where
  event_type : Str
  file : Str
  timestamp : Int
deriving DecidableEq

/-! ## Model of the git2 layer -/

/-- Underlying git2 error, identified by its message. -/
abbrev Git2Error : Type := Str

/-- A formatted object id (`Oid::to_string`). -/
abbrev Oid : Type := Str

/-- Opaque tree identifier. -/
abbrev TreeId : Type := Nat

/-- GitError from `git/mod.rs`; `Git` and `Io` wrap the underlying
messages (the `#[from]` conversions). -/
inductive GitError : Type
  | Git : Git2Error → GitError
  | RepoNotFound : Str → GitError
  | CommitNotFound : Str → GitError
  | Io : Str → GitError
deriving DecidableEq

/-- One side of a git2 delta (`delta.old_file()` / `delta.new_file()`),
carrying its optional path (after lossy decoding). -/
structure DiffFileSide : Type where
  path : Option Str
deriving DecidableEq

/-- git2 `Delta` status kinds. -/
inductive Delta : Type
  | Added
  | Deleted
  | Modified
  | Renamed
  | Copied
  | Ignored
  | Untracked
  | Typechange
  | Unmodified
  | Unreadable
  | Conflicted
deriving DecidableEq

/-- One diff line as handed to a git2 line callback: its origin marker and
its raw content bytes (arbitrary, possibly not valid UTF-8). -/
structure DiffLine : Type where
  origin : Char
  content : Bytes
deriving DecidableEq

/-- One changed path of a diff, with the lines libgit2 yields for it
(grouped per delta by the library's traversal order). -/
structure DiffDelta : Type where
  status : Delta
  old_file : DiffFileSide
  new_file : DiffFileSide
  lines : List DiffLine
deriving DecidableEq

/-- A prepared git2 diff object: its deltas, and the summary that
`diff.stats()` would return (computed by libgit2, hence external). -/
structure Git2Diff : Type where
  deltas : List DiffDelta
  diff_stats : Except Git2Error CommitStats

/-- The per-file patch byte cap used by `get_current_diff`
(`MAX_PATCH_SIZE` in `git/mod.rs`). -/
def MAX_PATCH_SIZE : Nat := 50000

/-- The `usize::MAX` cap passed by `get_commit_diff` and
`compare_branches`. -/
def USIZE_MAX : Nat := 2 ^ 64 - 1

/-! ## `parse_diff` (`git/mod.rs` lines 318-417) -/

/-- Current path of a delta:
`delta.new_file().path().or_else(|| delta.old_file().path())` with lossy
decoding and empty-string default. -/
def pathOfDelta (d : DiffDelta) : Str :=
  match d.new_file.path with
  | some p => p
  | none =>
    match d.old_file.path with
    | some p => p
    | none => []

/-- Status mapping of the file callback in `parse_diff`. -/
def fileStatusOfDelta : Delta → FileStatus
  | Delta.Added => FileStatus.Added
  | Delta.Untracked => FileStatus.Added
  | Delta.Deleted => FileStatus.Deleted
  | Delta.Renamed => FileStatus.Renamed
  | _ => FileStatus.Modified

/-- The fresh record pushed by the file callback of `parse_diff`. -/
def initFileInfo (delta : DiffDelta) : FileDiffInfo :=
  { path := pathOfDelta delta
  , old_path := if delta.status = Delta.Renamed then delta.old_file.path else none
  , status := fileStatusOfDelta delta.status
  , additions := 0
  , deletions := 0
  , old_content := none
  , new_content := none
  , patch := some []
  , is_large := some false }

/-- The counter update of the line callback: `+` bumps additions, `-`
bumps deletions, anything else is ignored. -/
def bumpCounters (f : FileDiffInfo) (o : Char) : FileDiffInfo :=
  if o = '+' then { f with additions := f.additions + 1 }
  else if o = '-' then { f with deletions := f.deletions + 1 }
  else f

/-- The patch-buffer append shared by `parse_diff` and `get_file_patch`:
push the origin marker when it is `+`, `-` or space, then the raw line
bytes when they are valid UTF-8 (`std::str::from_utf8` succeeding). -/
def push_line_bytes (patch : Bytes) (line : DiffLine) : Bytes :=
  let patch1 :=
    if line.origin = '+' ∨ line.origin = '-' ∨ line.origin = ' ' then
      patch ++ utf8EncodeChar line.origin
    else patch
  if utf8Valid line.content then patch1 ++ line.content else patch1

/-- The line callback of `parse_diff` applied to the last-appended file
record: guard on the current path, update counters, append to the patch
buffer when present, and discard the buffer once it exceeds the cap. -/
def processLine (max_patch_size : Nat) (delta : DiffDelta) (f : FileDiffInfo)
    (line : DiffLine) : FileDiffInfo :=
  if f.path = pathOfDelta delta then
    match (bumpCounters f line.origin).patch with
    | none => bumpCounters f line.origin
    | some patch0 =>
      if (push_line_bytes patch0 line).length > max_patch_size then
        { bumpCounters f line.origin with is_large := some true, patch := some [] }
      else { bumpCounters f line.origin with patch := some (push_line_bytes patch0 line) }
  else f

/-- One delta of the two-channel traversal: the file callback creates the
record, then every line of the delta is fed to the line callback. -/
def processDelta (max_patch_size : Nat) (delta : DiffDelta) : FileDiffInfo :=
  delta.lines.foldl (processLine max_patch_size delta) (initFileInfo delta)

/-- parse_diff from `git/mod.rs`: traverse the diff, then total the
per-file counters into `DiffStats`. -/
def parse_diff (diff : Git2Diff) (max_patch_size : Nat) : DiffResult :=
  let files := diff.deltas.map (processDelta max_patch_size)
  let total_additions := files.foldl (fun acc f => acc + f.additions) 0
  let total_deletions := files.foldl (fun acc f => acc + f.deletions) 0
  { files := files
  , stats :=
    { additions := total_additions
    , deletions := total_deletions
    , files := files.length } }

/-! ## `get_current_diff` and `get_file_patch` -/

/-- Environment of `get_current_diff`: `repo.head()?.peel_to_tree()?` and
the workdir-with-index diff against that tree. -/
structure WorkdirEnv : Type where
  head_tree : Except Git2Error TreeId
  diff_to_workdir : TreeId → Except Git2Error Git2Diff

/-- get_current_diff from `git/mod.rs`: HEAD tree to workdir-with-index,
rendered through `parse_diff` with the 50000-byte cap. -/
def get_current_diff (env : WorkdirEnv) : Except GitError DiffResult :=
  match env.head_tree with
  | Except.error e => Except.error (GitError.Git e)
  | Except.ok t =>
    match env.diff_to_workdir t with
    | Except.error e => Except.error (GitError.Git e)
    | Except.ok diff => Except.ok (parse_diff diff MAX_PATCH_SIZE)

/-- Environment of `get_file_patch`: HEAD tree, and the lines that
`diff.print(DiffFormat::Patch, ..)` yields for the pathspec-restricted
diff. -/
structure FilePatchEnv : Type where
  head_tree : Except Git2Error TreeId
  diff_print_lines : Except Git2Error (List DiffLine)

/-- get_file_patch from `git/mod.rs`: concatenate marker and decodable
content for every printed line, with no byte cap. -/
def get_file_patch (env : FilePatchEnv) : Except GitError Bytes :=
  match env.head_tree with
  | Except.error e => Except.error (GitError.Git e)
  | Except.ok _ =>
    match env.diff_print_lines with
    | Except.error e => Except.error (GitError.Git e)
    | Except.ok lines => Except.ok (lines.foldl push_line_bytes [])

/-! ## Commit queries (`get_commit_diff`, `commit_to_info`) -/

/-- A parent commit as reached by `commit.parent(0)`, with its tree
lookup. -/
structure ParentRef : Type where
  tree : Except Git2Error TreeId

/-- The data of one commit object as read by the code: formatted id,
parent access, tree lookup, message, author fields, authored time. -/
structure CommitData : Type where
  sha : Str
  parent_count : Nat
  parent0 : Except Git2Error ParentRef
  tree : Except Git2Error TreeId
  message : Option Str
  author_name : Option Str
  author_email : Option Str
  time_seconds : Int

/-- Environment of the commit queries: the git2 operations they invoke.
`format_timestamp` models `chrono::DateTime::from_timestamp` composed with
the fixed `%Y-%m-%dT%H:%M:%SZ` format. -/
structure RepoEnv : Type where
  parse_oid : Str → Except Git2Error Oid
  find_commit : Oid → Except Git2Error CommitData
  diff_tree_to_tree : Option TreeId → Option TreeId → Except Git2Error Git2Diff
  format_timestamp : Int → Option Str

/-- The parent-tree lookup shared (verbatim) by `get_commit_diff` and
`calculate_commit_stats`: `parents[0].tree()` when a parent exists, else
none (initial commit). -/
def parent_tree_of (c : CommitData) : Except Git2Error (Option TreeId) :=
  if c.parent_count > 0 then
    match c.parent0 with
    | Except.error e => Except.error e
    | Except.ok p =>
      match p.tree with
      | Except.error e => Except.error e
      | Except.ok t => Except.ok (some t)
  else Except.ok none

/-- calculate_commit_stats from `git/mod.rs`: parent tree → commit tree
diff, summarized by `diff.stats()`. -/
def calculate_commit_stats (env : RepoEnv) (c : CommitData) : Except GitError CommitStats :=
  match parent_tree_of c with
  | Except.error e => Except.error (GitError.Git e)
  | Except.ok pt =>
    match c.tree with
    | Except.error e => Except.error (GitError.Git e)
    | Except.ok ct =>
      match env.diff_tree_to_tree pt (some ct) with
      | Except.error e => Except.error (GitError.Git e)
      | Except.ok diff =>
        match diff.diff_stats with
        | Except.error e => Except.error (GitError.Git e)
        | Except.ok st => Except.ok st

/-- commit_to_info from `git/mod.rs`. The byte slice `sha[..7]` is the
only partial operation (`none` = panic); stat failure is swallowed to
zeroes and a missing date formats to the empty string. -/
def commit_to_info (env : RepoEnv) (c : CommitData) : Option CommitInfo :=
  match byteSliceTo c.sha 7 with
  | none => none
  | some short_sha =>
    some
      { sha := c.sha
      , short_sha := short_sha
      , message := c.message.getD []
      , author := c.author_name.getD []
      , author_email := c.author_email.getD []
      , date := (env.format_timestamp c.time_seconds).getD []
      , stats :=
        match calculate_commit_stats env c with
        | Except.ok st => st
        | Except.error _ => { additions := 0, deletions := 0, files := 0 } }

/-- get_commit_diff from `git/mod.rs`: parse the sha, look up the commit,
diff parent tree → commit tree with no cap, and build the `CommitDiff`
with the commit info's stats replaced by the totals of the parsed diff. -/
def get_commit_diff (env : RepoEnv) (sha : Str) : Option (Except GitError CommitDiff) :=
  match env.parse_oid sha with
  | Except.error e => some (Except.error (GitError.Git e))
  | Except.ok oid =>
    match env.find_commit oid with
    | Except.error e => some (Except.error (GitError.Git e))
    | Except.ok commit =>
      match parent_tree_of commit with
      | Except.error e => some (Except.error (GitError.Git e))
      | Except.ok parent_tree =>
        match commit.tree with
        | Except.error e => some (Except.error (GitError.Git e))
        | Except.ok commit_tree =>
          match env.diff_tree_to_tree parent_tree (some commit_tree) with
          | Except.error e => some (Except.error (GitError.Git e))
          | Except.ok diff =>
            match commit_to_info env commit with
            | none => none
            | some commit_info =>
              some (Except.ok
                { commit :=
                  { commit_info with
                    stats :=
                    { additions := (parse_diff diff USIZE_MAX).stats.additions
                    , deletions := (parse_diff diff USIZE_MAX).stats.deletions
                    , files := (parse_diff diff USIZE_MAX).stats.files } }
                , files := (parse_diff diff USIZE_MAX).files })

/-- Modelled from git2 `Oid::from_str`: accepts a nonempty string of at
most 40 hex digits, rejects anything else. Used only to build concrete
environments. -/
def oid_from_str_model (s : Str) : Except Git2Error Oid :=
  if (!s.isEmpty) && decide (s.length ≤ 40) && s.all (fun c =>
      c.isDigit || (decide ('a' ≤ c) && decide (c ≤ 'f')) ||
        (decide ('A' ≤ c) && decide (c ≤ 'F'))) then
    Except.ok s
  else Except.error (("unable to parse OID").toList)

/-! ## `compare_branches` -/

/-- A resolved reference, as produced by
`resolve_reference_from_short_name`, with its peel operation. -/
structure RefData : Type where
  peel_to_commit : Except Git2Error CommitData

/-- Environment of `compare_branches`: reference resolution, the
head-minus-base revwalk count, and tree-to-tree diffing. -/
structure CompareEnv : Type where
  resolve_ref : Str → Except Git2Error RefData
  walk_count : Oid → Oid → Except Git2Error Nat
  diff_tree_to_tree : Option TreeId → Option TreeId → Except Git2Error Git2Diff

/-- compare_branches from `git/mod.rs`. -/
def compare_branches (env : CompareEnv) (base hd : Str) : Except GitError CompareBranchesResult :=
  match env.resolve_ref base with
  | Except.error e => Except.error (GitError.Git e)
  | Except.ok base_ref =>
    match env.resolve_ref hd with
    | Except.error e => Except.error (GitError.Git e)
    | Except.ok head_ref =>
      match base_ref.peel_to_commit with
      | Except.error e => Except.error (GitError.Git e)
      | Except.ok base_commit =>
        match head_ref.peel_to_commit with
        | Except.error e => Except.error (GitError.Git e)
        | Except.ok head_commit =>
          match base_commit.tree with
          | Except.error e => Except.error (GitError.Git e)
          | Except.ok base_tree =>
            match head_commit.tree with
            | Except.error e => Except.error (GitError.Git e)
            | Except.ok head_tree =>
              match env.walk_count head_commit.sha base_commit.sha with
              | Except.error e => Except.error (GitError.Git e)
              | Except.ok commit_count =>
                match env.diff_tree_to_tree (some base_tree) (some head_tree) with
                | Except.error e => Except.error (GitError.Git e)
                | Except.ok diff =>
                  Except.ok
                    { files := (parse_diff diff USIZE_MAX).files
                    , stats := (parse_diff diff USIZE_MAX).stats
                    , commit_count := commit_count }

/-! ## `get_branches` -/

/-- The HEAD reference as used by `get_branches`: only its shorthand is
read. -/
structure HeadRef : Type where
  shorthand : Option Str

/-- One item of the local-branch iterator: the branch's name lookup, the
formatted id of the commit it peels to, and whether it is HEAD. -/
structure BranchEntry : Type where
  name : Except Git2Error (Option Str)
  peel_oid : Except Git2Error Oid
  is_head : Bool

/-- Environment of `get_branches`: `repo.head()` and the local-branch
iterator (whose creation and items can each fail). -/
structure BranchesEnv : Type where
  head : Except Git2Error HeadRef
  branches : Except Git2Error (List (Except Git2Error BranchEntry))

/-- The branch loop of `get_branches`: each item is unwrapped with `?`
(name, then peel), then the formatted id is sliced to 7 bytes (`none` =
panic). The first failure aborts the whole loop. -/
def branchesLoop : List (Except Git2Error BranchEntry) → Option (Except GitError (List BranchInfo))
  | [] => some (Except.ok [])
  | item :: rest =>
    match item with
    | Except.error e => some (Except.error (GitError.Git e))
    | Except.ok br =>
      match br.name with
      | Except.error e => some (Except.error (GitError.Git e))
      | Except.ok nm =>
        match br.peel_oid with
        | Except.error e => some (Except.error (GitError.Git e))
        | Except.ok oid =>
          match byteSliceTo oid 7 with
          | none => none
          | some short =>
            match branchesLoop rest with
            | none => none
            | some (Except.error e) => some (Except.error e)
            | some (Except.ok l) =>
              some (Except.ok ({ name := nm.getD [], current := br.is_head, commit := short } :: l))

/-- get_branches from `git/mod.rs`: resolve HEAD's shorthand (empty when
absent), then enumerate local branches fail-fast. -/
def get_branches (env : BranchesEnv) : Option (Except GitError BranchList) :=
  match env.head with
  | Except.error e => some (Except.error (GitError.Git e))
  | Except.ok hd =>
    match env.branches with
    | Except.error e => some (Except.error (GitError.Git e))
    | Except.ok items =>
      match branchesLoop items with
      | none => none
      | some (Except.error e) => some (Except.error e)
      | some (Except.ok bl) =>
        some (Except.ok { branches := bl, current := hd.shorthand.getD [] })

/-! ## Remote URL parsing (`parse_remote_url`, `detect_provider`) -/

def gitAtLit : Str := ("git@").toList

def dotGitLit : Str := (".git").toList

def httpsLit : Str := ("https://").toList

/-- detect_provider from `git/mod.rs`: substring matching on the host. -/
def detect_provider (host : Str) : GitProvider :=
  if containsSubstr host (("github").toList) then GitProvider.Github
  else if containsSubstr host (("gitlab").toList) then GitProvider.Gitlab
  else if containsSubstr host (("bitbucket").toList) then GitProvider.Bitbucket
  else GitProvider.Unknown

/-- Modelled from the external `url` crate as used by the source,
restricted to `scheme://host[/path]` inputs: an alphabetic nonempty scheme
followed by `://`, then the host up to the first `/` and the remaining
path (with its leading `/`). Anything else is a parse failure. -/
def urlParseModel (s : Str) : Option (Str × Str) :=
  match splitFirstOn (("://").toList) s with
  | none => none
  | some (scheme, rest) =>
    if (!scheme.isEmpty) && scheme.all (fun c => c.isAlpha) then
      some (rest.takeWhile (fun c => c ≠ '/'), rest.dropWhile (fun c => c ≠ '/'))
    else none

/-- parse_remote_url from `git/mod.rs`: the SCP-like `git@host:path`
branch (split on every `:`, requiring exactly two parts), else the URL
branch via the url crate; both strip `.git` with `trim_end_matches` and
take the first two `/`-separated path components. -/
def parse_remote_url (url : Str) : Option RemoteInfo :=
  if hasPre gitAtLit url then
    match splitOnChar ':' (url.drop gitAtLit.length) with
    | [host, sshPath] =>
      match splitOnChar '/' (trimEndMatches dotGitLit sshPath) with
      | owner :: repoName :: _ =>
        some
          { url := httpsLit ++ host ++ '/' :: trimEndMatches dotGitLit sshPath
          , provider := detect_provider host
          , owner := owner
          , repo := repoName }
      | _ => none
    | _ => none
  else
    match urlParseModel url with
    | some (host, rawPath) =>
      match splitOnChar '/' (trimEndMatches dotGitLit (rawPath.dropWhile (fun c => c = '/'))) with
      | owner :: repoName :: _ =>
        some
          { url := httpsLit ++ host ++ '/'
              :: trimEndMatches dotGitLit (rawPath.dropWhile (fun c => c = '/'))
          , provider := detect_provider host
          , owner := owner
          , repo := repoName }
      | _ => none
    | none => none

/-! ## Change notifier (`watcher.rs`) -/

/-- One debounced event as received from the watcher channel: only its
path (after lossy decoding) is consumed. -/
structure DebEvent : Type where
  path : Str
deriving DecidableEq

/-- One message on the watcher channel: a batch of debounced events
(`Ok(Ok(events))`) or a watcher error (`Ok(Err(e))`, which is only
logged). Channel close ends the message list. -/
inductive ChanMsg : Type
  | batch : List DebEvent → ChanMsg
  | watch_error : ChanMsg
deriving DecidableEq

/-- Modelled from `std::path::Path::strip_prefix` with the
`unwrap_or(&event.path)` fallback of `handle_events`: drop the base
directory (and separator) when the path is under it, otherwise keep the
absolute path. -/
def path_strip_base (base p : Str) : Str :=
  if hasPre (base ++ ['/']) p then p.drop (base.length + 1)
  else if p = base then []
  else p

/-- The event body of `handle_events`: drop any path containing `.git`,
otherwise emit a `FileChangeEvent` with the relative path and the current
time (`now`). -/
def process_event (base_path : Str) (now : Int) (ev : DebEvent) : Option FileChangeEvent :=
  if containsSubstr ev.path dotGitLit then none
  else
    some
      { event_type := ("change").toList
      , file := path_strip_base base_path ev.path
      , timestamp := now }

/-- One loop iteration of `handle_events`: a batch appends its surviving
events, a watcher error is only logged. -/
def handle_msg (base_path : Str) (now : Int) (acc : List FileChangeEvent) (m : ChanMsg) :
    List FileChangeEvent :=
  match m with
  | ChanMsg.batch events => acc ++ events.filterMap (process_event base_path now)
  | ChanMsg.watch_error => acc

/-- handle_events from `watcher.rs`, as the list of events emitted for a
finite sequence of channel messages (the loop exits when the channel
closes; watcher errors are logged and skipped). -/
def handle_events (base_path : Str) (now : Int) (msgs : List ChanMsg) : List FileChangeEvent :=
  msgs.foldl (handle_msg base_path now) []

/-- The same channel messages with every event whose path contains `.git`
removed; used to state that such events never contribute emissions. -/
def dropGitEvents (msgs : List ChanMsg) : List ChanMsg :=
  msgs.map (fun m =>
    match m with
    | ChanMsg.batch evs =>
      ChanMsg.batch (evs.filter (fun e => !containsSubstr e.path dotGitLit))
    | ChanMsg.watch_error => ChanMsg.watch_error)

/-! ## Helper lemmas -/

theorem hasPre_append (p s : Str) : hasPre p (p ++ s) = true := by
  induction p with
  | nil => rfl
  | cons a as ih => simp [hasPre, ih]

theorem drop_len_append (p s : Str) : (p ++ s).drop p.length = s := by
  induction p with
  | nil => rfl
  | cons a as ih => simp [ih]

theorem splitOnChar_cons (c x : Char) (xs : Str) :
    splitOnChar c (x :: xs)
      = match splitOnChar c xs with
        | [] => []
        | y :: ys => if x = c then [] :: y :: ys else (x :: y) :: ys := rfl

theorem splitOnChar_ne_nil (c : Char) (s : Str) : splitOnChar c s ≠ [] := by
  induction s with
  | nil => simp [splitOnChar]
  | cons x xs ih =>
    cases h : splitOnChar c xs with
    | nil => exact absurd h ih
    | cons y ys =>
      rw [splitOnChar_cons, h]
      dsimp only
      split <;> simp

theorem splitOnChar_no_sep (c : Char) (s : Str) (h : ∀ a ∈ s, a ≠ c) :
    splitOnChar c s = [s] := by
  induction s with
  | nil => rfl
  | cons x xs ih =>
    have hx : x ≠ c := h x (List.mem_cons_self x xs)
    have ih2 := ih (fun a ha => h a (List.mem_cons_of_mem x ha))
    rw [splitOnChar_cons, ih2]
    simp [hx]

theorem splitOnChar_append_sep (c : Char) (p q : Str) (h : ∀ a ∈ p, a ≠ c) :
    splitOnChar c (p ++ c :: q) = p :: splitOnChar c q := by
  induction p with
  | nil =>
    rw [List.nil_append, splitOnChar_cons]
    cases hq : splitOnChar c q with
    | nil => exact absurd hq (splitOnChar_ne_nil c q)
    | cons y ys => simp
  | cons x p2 ih =>
    have hx : x ≠ c := h x (List.mem_cons_self x p2)
    have ih2 := ih (fun a ha => h a (List.mem_cons_of_mem x ha))
    rw [List.cons_append, splitOnChar_cons, ih2]
    simp [hx]

theorem foldl_add_proj (g : FileDiffInfo → Nat) (l : List FileDiffInfo) (n : Nat) :
    l.foldl (fun acc f => acc + g f) n = n + (l.map g).sum := by
  induction l generalizing n with
  | nil => simp
  | cons f t ih => simp [ih, Nat.add_assoc]

theorem parse_diff_stats_additions (diff : Git2Diff) (cap : Nat) :
    (parse_diff diff cap).stats.additions
      = ((parse_diff diff cap).files.map FileDiffInfo.additions).sum := by
  simp [parse_diff, foldl_add_proj]

theorem parse_diff_stats_deletions (diff : Git2Diff) (cap : Nat) :
    (parse_diff diff cap).stats.deletions
      = ((parse_diff diff cap).files.map FileDiffInfo.deletions).sum := by
  simp [parse_diff, foldl_add_proj]

theorem parse_diff_stats_files (diff : Git2Diff) (cap : Nat) :
    (parse_diff diff cap).stats.files = (parse_diff diff cap).files.length := by
  simp [parse_diff]

theorem bumpCounters_path (f : FileDiffInfo) (o : Char) : (bumpCounters f o).path = f.path := by
  unfold bumpCounters
  split
  · rfl
  · split <;> rfl

theorem bumpCounters_old_path (f : FileDiffInfo) (o : Char) :
    (bumpCounters f o).old_path = f.old_path := by
  unfold bumpCounters
  split
  · rfl
  · split <;> rfl

theorem bumpCounters_status (f : FileDiffInfo) (o : Char) :
    (bumpCounters f o).status = f.status := by
  unfold bumpCounters
  split
  · rfl
  · split <;> rfl

theorem bumpCounters_patch (f : FileDiffInfo) (o : Char) : (bumpCounters f o).patch = f.patch := by
  unfold bumpCounters
  split
  · rfl
  · split <;> rfl

theorem bumpCounters_additions (f : FileDiffInfo) (o : Char) :
    (bumpCounters f o).additions = if o = '+' then f.additions + 1 else f.additions := by
  unfold bumpCounters
  split
  · simp_all
  · split <;> simp_all

theorem bumpCounters_deletions (f : FileDiffInfo) (o : Char) :
    (bumpCounters f o).deletions
      = if o ≠ '+' ∧ o = '-' then f.deletions + 1 else f.deletions := by
  unfold bumpCounters
  split
  · simp_all
  · split <;> simp_all

theorem processLine_path (cap : Nat) (d : DiffDelta) (f : FileDiffInfo) (l : DiffLine) :
    (processLine cap d f l).path = f.path := by
  unfold processLine
  split
  · split
    · exact bumpCounters_path f l.origin
    · split <;> exact bumpCounters_path f l.origin
  · rfl

theorem processLine_old_path (cap : Nat) (d : DiffDelta) (f : FileDiffInfo) (l : DiffLine) :
    (processLine cap d f l).old_path = f.old_path := by
  unfold processLine
  split
  · split
    · exact bumpCounters_old_path f l.origin
    · split <;> exact bumpCounters_old_path f l.origin
  · rfl

theorem processLine_status (cap : Nat) (d : DiffDelta) (f : FileDiffInfo) (l : DiffLine) :
    (processLine cap d f l).status = f.status := by
  unfold processLine
  split
  · split
    · exact bumpCounters_status f l.origin
    · split <;> exact bumpCounters_status f l.origin
  · rfl

theorem processLine_additions (cap : Nat) (d : DiffDelta) (f : FileDiffInfo) (l : DiffLine) :
    (processLine cap d f l).additions
      = if f.path = pathOfDelta d then (bumpCounters f l.origin).additions else f.additions := by
  unfold processLine
  split
  · split
    · simp_all
    · split <;> simp_all
  · simp_all

theorem processLine_deletions (cap : Nat) (d : DiffDelta) (f : FileDiffInfo) (l : DiffLine) :
    (processLine cap d f l).deletions
      = if f.path = pathOfDelta d then (bumpCounters f l.origin).deletions else f.deletions := by
  unfold processLine
  split
  · split
    · simp_all
    · split <;> simp_all
  · simp_all

theorem foldl_processLine_path (cap : Nat) (d : DiffDelta) (ls : List DiffLine)
    (f : FileDiffInfo) : (ls.foldl (processLine cap d) f).path = f.path := by
  induction ls generalizing f with
  | nil => rfl
  | cons l t ih => rw [List.foldl_cons, ih, processLine_path]

theorem foldl_processLine_old_path (cap : Nat) (d : DiffDelta) (ls : List DiffLine)
    (f : FileDiffInfo) : (ls.foldl (processLine cap d) f).old_path = f.old_path := by
  induction ls generalizing f with
  | nil => rfl
  | cons l t ih => rw [List.foldl_cons, ih, processLine_old_path]

theorem foldl_processLine_status (cap : Nat) (d : DiffDelta) (ls : List DiffLine)
    (f : FileDiffInfo) : (ls.foldl (processLine cap d) f).status = f.status := by
  induction ls generalizing f with
  | nil => rfl
  | cons l t ih => rw [List.foldl_cons, ih, processLine_status]

theorem processDelta_path (cap : Nat) (d : DiffDelta) :
    (processDelta cap d).path = pathOfDelta d := by
  unfold processDelta
  rw [foldl_processLine_path]
  rfl

theorem processDelta_old_path (cap : Nat) (d : DiffDelta) :
    (processDelta cap d).old_path
      = if d.status = Delta.Renamed then d.old_file.path else none := by
  unfold processDelta
  rw [foldl_processLine_old_path]
  rfl

theorem processDelta_status (cap : Nat) (d : DiffDelta) :
    (processDelta cap d).status = fileStatusOfDelta d.status := by
  unfold processDelta
  rw [foldl_processLine_status]
  rfl

theorem pathOfDelta_of_new (d : DiffDelta) (np : Str) (h : d.new_file.path = some np) :
    pathOfDelta d = np := by
  unfold pathOfDelta
  rw [h]

theorem fileStatusOfDelta_renamed_iff (s : Delta) :
    fileStatusOfDelta s = FileStatus.Renamed ↔ s = Delta.Renamed := by
  cases s <;> simp [fileStatusOfDelta]

theorem byteSliceTo_of_one_byte (s : Str) (n : Nat) (h1 : ∀ c ∈ s, charUtf8Size c = 1)
    (h2 : n ≤ s.length) : byteSliceTo s n = some (s.take n) := by
  induction s generalizing n with
  | nil =>
    cases n with
    | zero => rfl
    | succ m => simp at h2
  | cons c cs ih =>
    cases n with
    | zero => rfl
    | succ m =>
      have hc : charUtf8Size c = 1 := h1 c (List.mem_cons_self c cs)
      have hm : m ≤ cs.length := by simpa using h2
      unfold byteSliceTo
      rw [hc]
      have h7 : 1 ≤ m + 1 := by omega
      rw [if_pos h7]
      have : m + 1 - 1 = m := by omega
      rw [this, ih m (fun a ha => h1 a (List.mem_cons_of_mem c ha)) hm]
      simp [List.take]

theorem charUtf8Size_of_hexLower (c : Char) (h : isHexLowerChar c = true) :
    charUtf8Size c = 1 := by
  unfold isHexLowerChar at h
  simp only [Bool.or_eq_true, Bool.and_eq_true, decide_eq_true_eq] at h
  have hlt : c.toNat < 0x80 := by omega
  simp [charUtf8Size, hlt]

theorem compare_branches_ok_shape (env : CompareEnv) (base hd : Str)
    (r : CompareBranchesResult) (h : compare_branches env base hd = Except.ok r) :
    ∃ diff, r.files = (parse_diff diff USIZE_MAX).files
      ∧ r.stats = (parse_diff diff USIZE_MAX).stats := by
  unfold compare_branches at h
  repeat' split at h
  all_goals first
    | exact Except.noConfusion h
    | (injection h with h2; subst h2; exact ⟨_, rfl, rfl⟩)

theorem get_commit_diff_ok_shape (env : RepoEnv) (sha : Str) (cd : CommitDiff)
    (h : get_commit_diff env sha = some (Except.ok cd)) :
    ∃ diff, cd.files = (parse_diff diff USIZE_MAX).files
      ∧ cd.commit.stats.additions = (parse_diff diff USIZE_MAX).stats.additions
      ∧ cd.commit.stats.deletions = (parse_diff diff USIZE_MAX).stats.deletions
      ∧ cd.commit.stats.files = (parse_diff diff USIZE_MAX).stats.files := by
  unfold get_commit_diff at h
  repeat' split at h
  all_goals first
    | exact Option.noConfusion h
    | (injection h with h2; first
        | exact Except.noConfusion h2
        | (injection h2 with h3; subst h3; exact ⟨_, rfl, rfl, rfl, rfl⟩))

theorem processLine_patch_shape (cap : Nat) (d : DiffDelta) (f : FileDiffInfo) (l : DiffLine) :
    (processLine cap d f l).patch = f.patch
      ∨ (processLine cap d f l).patch = some []
      ∨ ∃ p, f.patch = some p ∧ (processLine cap d f l).patch = some (push_line_bytes p l) := by
  unfold processLine
  split
  · cases hp : (bumpCounters f l.origin).patch with
    | none =>
      left
      dsimp only
      exact bumpCounters_patch f l.origin
    | some p0 =>
      dsimp only
      split
      · right; left; rfl
      · right; right
        refine ⟨p0, ?_, rfl⟩
        rw [← bumpCounters_patch f l.origin]
        exact hp
  · left; rfl

theorem filterMap_process_event_drop_git (base : Str) (now : Int) (evs : List DebEvent) :
    (evs.filter (fun e => !containsSubstr e.path dotGitLit)).filterMap (process_event base now)
      = evs.filterMap (process_event base now) := by
  induction evs with
  | nil => rfl
  | cons e t ih =>
    cases hg : containsSubstr e.path dotGitLit with
    | true =>
      have hnone : process_event base now e = none := by simp [process_event, hg]
      simp [List.filter_cons, hg, List.filterMap_cons, hnone, ih]
    | false => simp [List.filter_cons, hg, List.filterMap_cons, ih]

theorem foldl_handle_msg_drop (base : Str) (now : Int) (msgs : List ChanMsg) :
    ∀ acc, (dropGitEvents msgs).foldl (handle_msg base now) acc
      = msgs.foldl (handle_msg base now) acc := by
  induction msgs with
  | nil => intro acc; rfl
  | cons m t ih =>
    intro acc
    cases m with
    | batch evs =>
      simp only [dropGitEvents, List.map_cons, List.foldl_cons, handle_msg]
      rw [filterMap_process_event_drop_git]
      exact ih _
    | watch_error =>
      simp only [dropGitEvents, List.map_cons, List.foldl_cons, handle_msg]
      exact ih _

/-- A branch-iterator item on which the loop's `?` operators fail: the
item itself, its name lookup, or its peel to a commit. -/
def branchEntryFails (item : Except Git2Error BranchEntry) : Prop :=
  (∃ e, item = Except.error e)
    ∨ ∃ br, item = Except.ok br
        ∧ ((∃ e, br.name = Except.error e) ∨ ∃ e, br.peel_oid = Except.error e)

theorem branchesLoop_fail (items : List (Except Git2Error BranchEntry))
    (hslice : ∀ br oid, Except.ok br ∈ items → br.peel_oid = Except.ok oid →
      (byteSliceTo oid 7).isSome = true)
    (hfail : ∃ item ∈ items, branchEntryFails item) :
    ∃ e, branchesLoop items = some (Except.error e) := by
  induction items with
  | nil => simp at hfail
  | cons item rest ih =>
    cases item with
    | error e => exact ⟨GitError.Git e, rfl⟩
    | ok br =>
      cases hn : br.name with
      | error e => exact ⟨GitError.Git e, by simp only [branchesLoop, hn]⟩
      | ok nm =>
        cases hp : br.peel_oid with
        | error e => exact ⟨GitError.Git e, by simp only [branchesLoop, hn, hp]⟩
        | ok oid =>
          have hs : (byteSliceTo oid 7).isSome = true :=
            hslice br oid (List.mem_cons_self _ _) hp
          have hfail2 : ∃ it ∈ rest, branchEntryFails it := by
            rcases hfail with ⟨it, hit, hfails⟩
            rcases List.mem_cons.mp hit with h1 | h2
            · subst h1
              exfalso
              rcases hfails with ⟨e, he⟩ | ⟨br2, hbr2, ⟨e, hne⟩ | ⟨e, hpe⟩⟩
              · exact Except.noConfusion he
              · rw [Except.ok.inj hbr2] at hn
                rw [hn] at hne
                exact Except.noConfusion hne
              · rw [Except.ok.inj hbr2] at hp
                rw [hp] at hpe
                exact Except.noConfusion hpe
            · exact ⟨it, h2, hfails⟩
          obtain ⟨e, hrest⟩ :=
            ih (fun br2 oid2 hm hp2 => hslice br2 oid2 (List.mem_cons_of_mem _ hm) hp2) hfail2
          obtain ⟨short, hshort⟩ := Option.isSome_iff_exists.mp hs
          exact ⟨e, by simp only [branchesLoop, hn, hp, hshort, hrest]⟩

theorem branchesLoop_all_ok (items : List (Except Git2Error BranchEntry))
    (hok : ∀ item ∈ items, ∃ br, item = Except.ok br
      ∧ (∃ nm, br.name = Except.ok nm)
      ∧ ∃ oid, br.peel_oid = Except.ok oid ∧ oid.length = 40
          ∧ ∀ ch ∈ oid, isHexLowerChar ch = true) :
    ∃ l, branchesLoop items = some (Except.ok l) := by
  induction items with
  | nil => exact ⟨[], rfl⟩
  | cons item rest ih =>
    obtain ⟨br, hitem, ⟨nm, hnm⟩, oid, hoid, h40, hhex⟩ :=
      hok item (List.mem_cons_self _ _)
    obtain ⟨l, hl⟩ := ih (fun it hm => hok it (List.mem_cons_of_mem _ hm))
    have hsl : byteSliceTo oid 7 = some (oid.take 7) :=
      byteSliceTo_of_one_byte oid 7
        (fun ch hch => charUtf8Size_of_hexLower ch (hhex ch hch)) (by rw [h40]; omega)
    subst hitem
    exact ⟨{ name := nm.getD [], current := br.is_head, commit := oid.take 7 } :: l,
      by simp only [branchesLoop, hnm, hoid, hsl, hl]⟩

/-! ## Concrete fixtures for witnesses and counterexamples -/

/-- A line whose 13 content bytes push the patch buffer past a 10-byte
cap. -/
def largeLine : DiffLine := { origin := '+', content := asciiBytes ("aaaaaaaaaaaa\n") }

/-- A short line processed after the buffer was discarded. -/
def tailLine : DiffLine := { origin := '+', content := asciiBytes ("b\n") }

/-- One modified file whose patch overflows mid-file and then receives one
more line. -/
def overflowDelta : DiffDelta :=
  { status := Delta.Modified
  , old_file := { path := some (("a.txt").toList) }
  , new_file := { path := some (("a.txt").toList) }
  , lines := [largeLine, tailLine] }

def overflowDiff : Git2Diff :=
  { deltas := [overflowDelta], diff_stats := Except.ok ⟨0, 0, 0⟩ }

/-- A one-file, one-added-line diff. -/
def smallDelta : DiffDelta :=
  { status := Delta.Modified
  , old_file := { path := some (("a.txt").toList) }
  , new_file := { path := some (("a.txt").toList) }
  , lines := [{ origin := '+', content := asciiBytes ("x\n") }] }

def smallDiff : Git2Diff := { deltas := [smallDelta], diff_stats := Except.ok ⟨1, 0, 1⟩ }

/-- The file record `parse_diff` produces for `smallDelta` (no cap hit). -/
def smallFileInfo : FileDiffInfo :=
  { path := ("a.txt").toList
  , old_path := none
  , status := FileStatus.Modified
  , additions := 1
  , deletions := 0
  , old_content := none
  , new_content := none
  , patch := some [43, 120, 10]
  , is_large := some false }

/-- A commit with a 40-hex id and no parent (initial commit). -/
def fixtureCommit : CommitData :=
  { sha := ("0123456789abcdef0123456789abcdef01234567").toList
  , parent_count := 0
  , parent0 := Except.error (("no parent").toList)
  , tree := Except.ok 1
  , message := some (("init").toList)
  , author_name := some (("Ada").toList)
  , author_email := some (("ada@example.com").toList)
  , time_seconds := 0 }

/-- A repository environment with one commit and the one-file diff. -/
def fixtureRepoEnv : RepoEnv :=
  { parse_oid := oid_from_str_model
  , find_commit := fun _ => Except.ok fixtureCommit
  , diff_tree_to_tree := fun _ _ => Except.ok smallDiff
  , format_timestamp := fun _ => some (("1970-01-01T00:00:00Z").toList) }

/-- The commit diff `get_commit_diff` returns in `fixtureRepoEnv`. -/
def fixtureCommitDiff : CommitDiff :=
  { commit :=
    { sha := ("0123456789abcdef0123456789abcdef01234567").toList
    , short_sha := ("0123456").toList
    , message := ("init").toList
    , author := ("Ada").toList
    , author_email := ("ada@example.com").toList
    , date := ("1970-01-01T00:00:00Z").toList
    , stats := ⟨1, 0, 1⟩ }
  , files := [smallFileInfo] }

/-- A repository environment whose commit lookups all fail. -/
def invalidShaEnv : RepoEnv :=
  { parse_oid := oid_from_str_model
  , find_commit := fun _ => Except.error (("object not found").toList)
  , diff_tree_to_tree := fun _ _ => Except.error (("no diff").toList)
  , format_timestamp := fun _ => none }

/-- A compare environment over the one-file diff with two commits ahead. -/
def fixtureCompareEnv : CompareEnv :=
  { resolve_ref := fun _ => Except.ok { peel_to_commit := Except.ok fixtureCommit }
  , walk_count := fun _ _ => Except.ok 2
  , diff_tree_to_tree := fun _ _ => Except.ok smallDiff }

/-- The result `compare_branches` returns in `fixtureCompareEnv`. -/
def fixtureCompareResult : CompareBranchesResult :=
  { files := [smallFileInfo], stats := ⟨1, 0, 1⟩, commit_count := 2 }

/-- A renamed delta with distinct old and new paths. -/
def renameDelta : DiffDelta :=
  { status := Delta.Renamed
  , old_file := { path := some (("a.txt").toList) }
  , new_file := { path := some (("b.txt").toList) }
  , lines := [] }

def renameDiff : Git2Diff := { deltas := [renameDelta], diff_stats := Except.ok ⟨0, 0, 0⟩ }

/-- A branch-iterator entry whose peel to a commit fails. -/
def failBranchEntry : BranchEntry :=
  { name := Except.ok (some (("dev").toList))
  , peel_oid := Except.error (("peel failed").toList)
  , is_head := false }

/-- A branch environment containing one failing entry. -/
def failBranchesEnv : BranchesEnv :=
  { head := Except.ok { shorthand := some (("main").toList) }
  , branches := Except.ok [Except.ok failBranchEntry] }

/-- A branch-iterator entry that fully succeeds with a 40-hex id. -/
def okBranchEntry : BranchEntry :=
  { name := Except.ok (some (("main").toList))
  , peel_oid := Except.ok (("0123456789abcdef0123456789abcdef01234567").toList)
  , is_head := true }

/-- A branch environment containing one fully succeeding entry. -/
def okBranchesEnv : BranchesEnv :=
  { head := Except.ok { shorthand := some (("main").toList) }
  , branches := Except.ok [Except.ok okBranchEntry] }

/-! ## Claim theorems -/

/-- C1: the code violates the claimed large-file contract. On a diff
whose patch buffer overflows the cap mid-file (here cap 10: a 14-byte
first line) and then receives one more line, `parse_diff` leaves
`is_large = true` with a nonempty residual patch (the line appended after
the buffer was discarded), because the line callback keeps appending to
the freshly cleared buffer. The additions counter does still count every
added line (2), as the claim states. -/
theorem c1_large_patch_residual :
    ∃ f ∈ (parse_diff overflowDiff 10).files,
      f.is_large = some true ∧ f.patch ≠ some [] ∧ f.additions = 2 := by decide

/-- C2 (amended): for a sha that fails to parse as an object id, or that
names no commit, `get_commit_diff` fails with the `Git` error kind
wrapping the underlying git2 error — not `CommitNotFound`, which the code
never constructs — and no partial result is produced. -/
theorem c2_commit_lookup_error_kind (env : RepoEnv) (sha : Str)
    (h : (∃ e, env.parse_oid sha = Except.error e)
      ∨ ∃ o e, env.parse_oid sha = Except.ok o ∧ env.find_commit o = Except.error e) :
    ∃ e, get_commit_diff env sha = some (Except.error (GitError.Git e)) := by
  rcases h with ⟨e, he⟩ | ⟨o, e, ho, hf⟩
  · exact ⟨e, by simp only [get_commit_diff, he]⟩
  · exact ⟨e, by simp only [get_commit_diff, ho, hf]⟩

/-- C2 counterexample: on the invalid sha "zz" the result is not the
`CommitNotFound` error the claim requires (it is `Git "unable to parse
OID"`). -/
theorem c2_counterexample :
    get_commit_diff invalidShaEnv (("zz").toList)
      ≠ some (Except.error (GitError.CommitNotFound (("zz").toList))) := by decide

/-- C2 witness: the amended theorem applied to the invalid sha "zz". -/
theorem c2_witness :
    ∃ e, get_commit_diff invalidShaEnv (("zz").toList)
      = some (Except.error (GitError.Git e)) :=
  c2_commit_lookup_error_kind invalidShaEnv (("zz").toList)
    (Or.inl ⟨("unable to parse OID").toList, by decide⟩)

/-- C3: every successful `get_commit_diff` returns commit stats equal to
the totals of the returned files list (sum of additions, sum of
deletions, number of files), since the stats computed by
`commit_to_info` are overridden with the parsed diff's totals. -/
theorem c3_commit_diff_stats_parity (env : RepoEnv) (sha : Str) (cd : CommitDiff)
    (h : get_commit_diff env sha = some (Except.ok cd)) :
    cd.commit.stats.additions = (cd.files.map FileDiffInfo.additions).sum
      ∧ cd.commit.stats.deletions = (cd.files.map FileDiffInfo.deletions).sum
      ∧ cd.commit.stats.files = cd.files.length := by
  obtain ⟨diff, hfiles, ha, hd2, hf2⟩ := get_commit_diff_ok_shape env sha cd h
  refine ⟨?_, ?_, ?_⟩
  · rw [ha, hfiles]
    exact parse_diff_stats_additions diff USIZE_MAX
  · rw [hd2, hfiles]
    exact parse_diff_stats_deletions diff USIZE_MAX
  · rw [hf2, hfiles]
    exact parse_diff_stats_files diff USIZE_MAX

/-- C3 witness: the theorem applied to a concrete one-commit repository
environment. -/
theorem c3_witness :
    fixtureCommitDiff.commit.stats.additions
        = (fixtureCommitDiff.files.map FileDiffInfo.additions).sum
      ∧ fixtureCommitDiff.commit.stats.deletions
        = (fixtureCommitDiff.files.map FileDiffInfo.deletions).sum
      ∧ fixtureCommitDiff.commit.stats.files = fixtureCommitDiff.files.length :=
  c3_commit_diff_stats_parity fixtureRepoEnv
    (("0123456789abcdef0123456789abcdef01234567").toList) fixtureCommitDiff (by decide)

/-- C4: stats consistency. Every `parse_diff` output (hence every
`DiffResult`) and every successful `compare_branches` result has
`stats.additions` and `stats.deletions` equal to the sums over its files
and `stats.files` equal to the length of the files vector. -/
theorem c4_stats_consistency :
    (∀ (diff : Git2Diff) (cap : Nat),
      (parse_diff diff cap).stats.additions
          = ((parse_diff diff cap).files.map FileDiffInfo.additions).sum
        ∧ (parse_diff diff cap).stats.deletions
          = ((parse_diff diff cap).files.map FileDiffInfo.deletions).sum
        ∧ (parse_diff diff cap).stats.files = (parse_diff diff cap).files.length)
  ∧ ∀ (env : CompareEnv) (base hd : Str) (r : CompareBranchesResult),
      compare_branches env base hd = Except.ok r →
      r.stats.additions = (r.files.map FileDiffInfo.additions).sum
        ∧ r.stats.deletions = (r.files.map FileDiffInfo.deletions).sum
        ∧ r.stats.files = r.files.length := by
  constructor
  · intro diff cap
    exact ⟨parse_diff_stats_additions diff cap, parse_diff_stats_deletions diff cap,
      parse_diff_stats_files diff cap⟩
  · intro env base hd r h
    obtain ⟨diff, hfiles, hstats⟩ := compare_branches_ok_shape env base hd r h
    rw [hfiles, hstats]
    exact ⟨parse_diff_stats_additions diff USIZE_MAX,
      parse_diff_stats_deletions diff USIZE_MAX, parse_diff_stats_files diff USIZE_MAX⟩

/-- C4 witness: the compare-branches half applied to a concrete
environment. -/
theorem c4_witness :
    fixtureCompareResult.stats.additions
        = (fixtureCompareResult.files.map FileDiffInfo.additions).sum
      ∧ fixtureCompareResult.stats.deletions
        = (fixtureCompareResult.files.map FileDiffInfo.deletions).sum
      ∧ fixtureCompareResult.stats.files = fixtureCompareResult.files.length :=
  c4_stats_consistency.2 fixtureCompareEnv (("main").toList) (("feature").toList)
    fixtureCompareResult (by decide)

/-- C5 (amended): on an SCP-like url `git@HOST:PATH` whose host and path
contain no further `:`, `parse_remote_url` strips ALL trailing `.git`
suffixes (the `trim_end_matches` semantics, not a single one as the claim
states), takes the first two `/`-separated components as owner and repo,
and normalizes to `https://HOST/PATH`; in particular the two round-trip
examples of the claim hold. -/
theorem c5_remote_url_parsing :
    (∀ (host rest owner repoName : Str) (more : List Str),
      (∀ a ∈ host, a ≠ ':') → (∀ a ∈ rest, a ≠ ':') →
      splitOnChar '/' (trimEndMatches dotGitLit rest) = owner :: repoName :: more →
      parse_remote_url (gitAtLit ++ (host ++ ':' :: rest))
        = some
          { url := httpsLit ++ host ++ '/' :: trimEndMatches dotGitLit rest
          , provider := detect_provider host
          , owner := owner
          , repo := repoName })
  ∧ parse_remote_url (("git@github.com:foo/bar.git").toList)
      = some
        { url := ("https://github.com/foo/bar").toList
        , provider := GitProvider.Github
        , owner := ("foo").toList
        , repo := ("bar").toList }
  ∧ parse_remote_url (("https://github.com/foo/bar.git").toList)
      = some
        { url := ("https://github.com/foo/bar").toList
        , provider := GitProvider.Github
        , owner := ("foo").toList
        , repo := ("bar").toList } := by
  refine ⟨?_, by decide, by decide⟩
  intro host rest owner repoName more hh hr hsplit
  have h1 : hasPre gitAtLit (gitAtLit ++ (host ++ ':' :: rest)) = true := hasPre_append _ _
  have h2 : (gitAtLit ++ (host ++ ':' :: rest)).drop gitAtLit.length = host ++ ':' :: rest :=
    drop_len_append _ _
  have h3 : splitOnChar ':' (host ++ ':' :: rest) = [host, rest] := by
    rw [splitOnChar_append_sep ':' host rest hh, splitOnChar_no_sep ':' rest hr]
  unfold parse_remote_url
  rw [h2, h3]
  dsimp only
  rw [hsplit]
  simp [h1]

/-- C5 counterexample: on `git@github.com:foo/bar.git.git` the code
strips both `.git` suffixes, so the claim's single-strip prediction
(owner `foo`, repo `bar.git`, url `https://github.com/foo/bar.git`) is
not the result. -/
theorem c5_counterexample :
    parse_remote_url (("git@github.com:foo/bar.git.git").toList)
      ≠ some
        { url := ("https://github.com/foo/bar.git").toList
        , provider := GitProvider.Github
        , owner := ("foo").toList
        , repo := ("bar.git").toList } := by decide

/-- C5 witness: the general SCP branch applied to
`git@github.com:foo/bar.git`. -/
theorem c5_witness :
    parse_remote_url (gitAtLit ++ ((("github.com").toList) ++ ':' :: (("foo/bar.git").toList)))
      = some
        { url := httpsLit ++ (("github.com").toList) ++ '/'
            :: trimEndMatches dotGitLit (("foo/bar.git").toList)
        , provider := detect_provider (("github.com").toList)
        , owner := ("foo").toList
        , repo := ("bar").toList } :=
  c5_remote_url_parsing.1 (("github.com").toList) (("foo/bar.git").toList)
    (("foo").toList) (("bar").toList) [] (by decide) (by decide) (by decide)

/-- C6: in every `parse_diff` output, provided the underlying library
reports renamed deltas with both paths present and distinct (libgit2's
contract), a file record with status `renamed` has `old_path` present and
distinct from `path`, and any other status has no `old_path`. -/
theorem c6_rename_record (diff : Git2Diff) (cap : Nat)
    (hren : ∀ d ∈ diff.deltas, d.status = Delta.Renamed →
      ∃ np op, d.new_file.path = some np ∧ d.old_file.path = some op ∧ op ≠ np) :
    ∀ f ∈ (parse_diff diff cap).files,
      (f.status = FileStatus.Renamed → ∃ p, f.old_path = some p ∧ p ≠ f.path)
        ∧ (f.status ≠ FileStatus.Renamed → f.old_path = none) := by
  intro f hf
  have hf2 : f ∈ diff.deltas.map (processDelta cap) := hf
  obtain ⟨d, hd, hfd⟩ := List.mem_map.mp hf2
  subst hfd
  constructor
  · intro hst
    rw [processDelta_status] at hst
    have hdst : d.status = Delta.Renamed := (fileStatusOfDelta_renamed_iff _).mp hst
    obtain ⟨np, op, hnp, hop, hne⟩ := hren d hd hdst
    refine ⟨op, ?_, ?_⟩
    · rw [processDelta_old_path, if_pos hdst, hop]
    · rw [processDelta_path, pathOfDelta_of_new d np hnp]
      exact hne
  · intro hst
    rw [processDelta_status] at hst
    have hdst : d.status ≠ Delta.Renamed :=
      fun hc => hst ((fileStatusOfDelta_renamed_iff _).mpr hc)
    rw [processDelta_old_path, if_neg hdst]

/-- C6 witness: the theorem applied to a concrete renamed delta. -/
theorem c6_witness :
    ∃ p, (processDelta MAX_PATCH_SIZE renameDelta).old_path = some p
      ∧ p ≠ (processDelta MAX_PATCH_SIZE renameDelta).path :=
  (c6_rename_record renameDiff MAX_PATCH_SIZE
      (by
        intro d hd hst
        have hd2 : d = renameDelta := by simpa [renameDiff] using hd
        subst hd2
        exact ⟨("b.txt").toList, ("a.txt").toList, rfl, rfl, by decide⟩)
      (processDelta MAX_PATCH_SIZE renameDelta) (by decide)).1 (by decide)

/-- C7: line processing is total over arbitrary content bytes. The patch
append used by `get_file_patch` and `parse_diff` emits exactly the origin
marker when it is `+`, `-` or space (nothing for any other origin)
followed by the content only when it decodes as UTF-8; the `+`/`-`
counters of `parse_diff`'s line callback do not depend on the content
bytes at all; and the patch after a line is the old patch, the discarded
empty patch, or the old patch extended by the same append. -/
theorem c7_line_processing_total :
    (∀ (patch : Bytes) (line : DiffLine),
      push_line_bytes patch line
        = patch
            ++ (if line.origin = '+' ∨ line.origin = '-' ∨ line.origin = ' ' then
                  utf8EncodeChar line.origin
                else [])
            ++ (if utf8Valid line.content then line.content else []))
  ∧ (∀ (cap : Nat) (d : DiffDelta) (f : FileDiffInfo) (o : Char) (c1 c2 : Bytes),
      (processLine cap d f { origin := o, content := c1 }).additions
          = (processLine cap d f { origin := o, content := c2 }).additions
        ∧ (processLine cap d f { origin := o, content := c1 }).deletions
          = (processLine cap d f { origin := o, content := c2 }).deletions)
  ∧ ∀ (cap : Nat) (d : DiffDelta) (f : FileDiffInfo) (l : DiffLine),
      (processLine cap d f l).patch = f.patch
        ∨ (processLine cap d f l).patch = some []
        ∨ ∃ p, f.patch = some p ∧ (processLine cap d f l).patch = some (push_line_bytes p l) := by
  refine ⟨?_, ?_, processLine_patch_shape⟩
  · intro patch line
    simp only [push_line_bytes]
    split <;> split <;> simp [List.append_assoc]
  · intro cap d f o c1 c2
    constructor
    · rw [processLine_additions, processLine_additions]
    · rw [processLine_deletions, processLine_deletions]

/-- C8: the notifier never emits an event for a path containing `.git`:
the per-event body drops any such path, and removing all such events from
the channel input leaves the emitted stream unchanged. -/
theorem c8_watcher_git_filter :
    (∀ (base_path : Str) (now : Int) (ev : DebEvent),
      containsSubstr ev.path dotGitLit = true → process_event base_path now ev = none)
  ∧ ∀ (base_path : Str) (now : Int) (msgs : List ChanMsg),
      handle_events base_path now (dropGitEvents msgs) = handle_events base_path now msgs := by
  constructor
  · intro base_path now ev h
    simp [process_event, h]
  · intro base_path now msgs
    unfold handle_events
    exact foldl_handle_msg_drop base_path now msgs []

/-- C8 witness: the filter applied to a path inside the `.git`
directory. -/
theorem c8_witness :
    process_event (("/repo").toList) 0 { path := ("/repo/.git/index").toList } = none :=
  c8_watcher_git_filter.1 (("/repo").toList) 0 { path := ("/repo/.git/index").toList }
    (by decide)

/-- C9: `get_branches` is fail-fast. If any local-branch iterator item
fails — the item itself, its name lookup, or its peel to a commit — the
whole operation returns an error and no `BranchList` is produced. (The
side condition rules out the independent slicing panic on the formatted
ids of the entries processed before the failure.) -/
theorem c9_branches_fail_fast (env : BranchesEnv)
    (items : List (Except Git2Error BranchEntry)) (hb : env.branches = Except.ok items)
    (hslice : ∀ br oid, Except.ok br ∈ items → br.peel_oid = Except.ok oid →
      (byteSliceTo oid 7).isSome = true)
    (hfail : ∃ item ∈ items, branchEntryFails item) :
    ∃ e, get_branches env = some (Except.error e) := by
  cases hh : env.head with
  | error e => exact ⟨GitError.Git e, by simp only [get_branches, hh]⟩
  | ok hd =>
    obtain ⟨e, hloop⟩ := branchesLoop_fail items hslice hfail
    exact ⟨e, by simp only [get_branches, hh, hb, hloop]⟩

/-- C9 witness: the theorem applied to an environment whose only branch
fails to peel. -/
theorem c9_witness : ∃ e, get_branches failBranchesEnv = some (Except.error e) :=
  c9_branches_fail_fast failBranchesEnv [Except.ok failBranchEntry] rfl
    (by
      intro br oid hm hp
      have hbr : br = failBranchEntry := by simpa using hm
      subst hbr
      exact Except.noConfusion hp)
    ⟨Except.ok failBranchEntry, by simp,
      Or.inr ⟨failBranchEntry, rfl, Or.inr ⟨("peel failed").toList, rfl⟩⟩⟩

/-- C10: the `sha[..7]` byte slices of `commit_to_info` and
`get_branches` are safe under the precondition that formatted object ids
are 40 lowercase hex characters: the slice lands in bounds on a character
boundary, so `commit_to_info` returns a record whose `short_sha` is the
first 7 characters, and `get_branches` completes without panicking. -/
theorem c10_short_sha_slice_safe :
    (∀ (env : RepoEnv) (c : CommitData),
      c.sha.length = 40 → (∀ ch ∈ c.sha, isHexLowerChar ch = true) →
      ∃ info, commit_to_info env c = some info ∧ info.short_sha = c.sha.take 7)
  ∧ ∀ (env : BranchesEnv) (hd : HeadRef) (items : List (Except Git2Error BranchEntry)),
      env.head = Except.ok hd → env.branches = Except.ok items →
      (∀ item ∈ items, ∃ br, item = Except.ok br
        ∧ (∃ nm, br.name = Except.ok nm)
        ∧ ∃ oid, br.peel_oid = Except.ok oid ∧ oid.length = 40
            ∧ ∀ ch ∈ oid, isHexLowerChar ch = true) →
      ∃ bl, get_branches env = some (Except.ok bl) := by
  constructor
  · intro env c h40 hhex
    have hsl : byteSliceTo c.sha 7 = some (c.sha.take 7) :=
      byteSliceTo_of_one_byte c.sha 7
        (fun ch hch => charUtf8Size_of_hexLower ch (hhex ch hch)) (by rw [h40]; omega)
    refine ⟨{ sha := c.sha
            , short_sha := c.sha.take 7
            , message := c.message.getD []
            , author := c.author_name.getD []
            , author_email := c.author_email.getD []
            , date := (env.format_timestamp c.time_seconds).getD []
            , stats :=
              match calculate_commit_stats env c with
              | Except.ok st => st
              | Except.error _ => ⟨0, 0, 0⟩ }, ?_, rfl⟩
    simp only [commit_to_info, hsl]
  · intro env hd items hh hb hok
    obtain ⟨l, hl⟩ := branchesLoop_all_ok items hok
    exact ⟨{ branches := l, current := hd.shorthand.getD [] },
      by simp only [get_branches, hh, hb, hl]⟩

/-- C10 witness: both halves applied to concrete 40-hex inputs. -/
theorem c10_witness :
    (∃ info, commit_to_info invalidShaEnv fixtureCommit = some info
      ∧ info.short_sha = fixtureCommit.sha.take 7)
  ∧ ∃ bl, get_branches okBranchesEnv = some (Except.ok bl) :=
  ⟨c10_short_sha_slice_safe.1 invalidShaEnv fixtureCommit (by decide) (by decide),
    c10_short_sha_slice_safe.2 okBranchesEnv { shorthand := some (("main").toList) }
      [Except.ok okBranchEntry] rfl rfl
      (by
        intro item hm
        have h2 : item = Except.ok okBranchEntry := by simpa using hm
        subst h2
        exact ⟨okBranchEntry, rfl, ⟨some (("main").toList), rfl⟩,
          ("0123456789abcdef0123456789abcdef01234567").toList, rfl, by decide, by decide⟩)⟩

end Differ
